import Mathlib

set_option maxRecDepth 1000000

/-!
# Verification of the techbot article-selection subsystem

Shallow embedding of `src/ai-processor.ts` (the revision with the
history-aware selector and the deterministic fallback scorer, lines
319-588) and `src/article-history.ts` (the `ArticleHistoryManager`).

Modelling conventions:
* JS numbers that stay exact (integers, halves, two-decimal rationals)
  are modelled as `ℚ`; `NaN` is modelled by `Option ℚ` with `none`
  standing for `NaN` (the only `NaN` source in the scorer is
  `new Date(pubDate).getTime()` on an unparsable date).
* An `Article`'s `pubDate` string is consumed by the scorer only through
  `new Date(article.pubDate).getTime()`; we embed that observable
  directly as `pubTime : Option ℤ` (milliseconds since epoch, `none` for
  an unparsable date, i.e. `NaN`).
* `Math.random() * 2` draws are passed in as an explicit `jitter : ℕ → ℚ`
  stream, one draw per candidate index, mirroring the one
  `Math.random()` call per array element in the `map`.
* `Array.prototype.sort` with the comparator `(a, b) => b.score - a.score`
  is modelled by a stable insertion sort with the strict ordering
  "`x` stays before an earlier-inserted `y` unless `y.score > x.score`";
  per the ECMAScript `SortCompare` a comparator result of `NaN` counts
  as `+0`, so `NaN` scores compare "equal" to everything, which the
  `scoreGt _ _ = false` branch reproduces.
* File I/O (`fs.readFile`/`writeFile`) is external: `loadHistory` takes
  the parse outcome of the file contents (`none` = missing/corrupt file
  or a `selectedArticles` field that is not an array), and `saveHistory`
  leaves the in-memory state unchanged.
* The `sourceScores` object literal is modelled as a finite map with
  default 3 (`sourceScores[article.source] || 3`; no table value is
  falsy).  JavaScript prototype-chain lookups (e.g. a source named
  `"toString"` resolving to an inherited function) are outside the model.
-/

namespace Techbot

/-! ## JavaScript string primitives -/

/-- The whitespace characters recognised by `String.prototype.trim` /
`parseInt` (ASCII fragment). -/
def jsWhitespace (c : Char) : Bool :=
  c = ' ' || c = '\t' || c = '\n' || c = '\r' || c = '\x0b' || c = '\x0c'

/-- `String.prototype.trim`. -/
def jsTrim (s : String) : String :=
  String.mk (((s.data.dropWhile jsWhitespace).reverse.dropWhile jsWhitespace).reverse)

/-- `String.prototype.toLowerCase` (ASCII-faithful). -/
def toLowerStr (s : String) : String :=
  String.mk (s.data.map Char.toLower)

/-- `String.prototype.includes needle` on character lists: some suffix of
the haystack starts with the needle. -/
def containsSub (needle : List Char) : List Char → Bool
  | [] => needle.isEmpty
  | c :: rest => needle.isPrefixOf (c :: rest) || containsSub needle rest

/-- `hay.includes(needle)`. -/
def jsIncludes (hay needle : String) : Bool :=
  containsSub needle.data hay.data

/-- Numeric value of a list of decimal digits. -/
def decDigitsVal (ds : List Char) : ℕ :=
  ds.foldl (fun acc c => acc * 10 + (c.toNat - '0'.toNat)) 0

def isHexDigit (c : Char) : Bool :=
  c.isDigit || ('a' ≤ c && c ≤ 'f') || ('A' ≤ c && c ≤ 'F')

/-- Numeric value of one hexadecimal digit. -/
def hexDigitVal (c : Char) : ℕ :=
  if c.isDigit then c.toNat - '0'.toNat
  else if 'a' ≤ c && c ≤ 'f' then c.toNat - 'a'.toNat + 10
  else c.toNat - 'A'.toNat + 10

def hexDigitsVal (ds : List Char) : ℕ :=
  ds.foldl (fun acc c => acc * 16 + hexDigitVal c) 0

/-- `parseInt(s)` with the default radix: skip leading whitespace, an
optional sign, auto-detect a `0x`/`0X` prefix, then take the longest
prefix of valid digits; `none` models a `NaN` result. -/
def jsParseInt (s : String) : Option ℤ :=
  let cs := s.data.dropWhile jsWhitespace
  let signed : ℤ × List Char :=
    match cs with
    | '-' :: rest => (-1, rest)
    | '+' :: rest => (1, rest)
    | _ => (1, cs)
  let sign := signed.1
  match signed.2 with
  | '0' :: x :: rest =>
    if x = 'x' ∨ x = 'X' then
      let ds := rest.takeWhile isHexDigit
      if ds.isEmpty then none else some (sign * hexDigitsVal ds)
    else
      let ds := ('0' :: x :: rest).takeWhile Char.isDigit
      if ds.isEmpty then none else some (sign * decDigitsVal ds)
  | other =>
    let ds := other.takeWhile Char.isDigit
    if ds.isEmpty then none else some (sign * decDigitsVal ds)

/-! ## Data model (`src/types.ts`, `src/article-history.ts`) -/

/-- `Article` from `src/types.ts`; `pubTime` embeds
`new Date(pubDate).getTime()` (`none` = `NaN`). -/
structure Article where
  title : String
  link : String
  content : String
  pubTime : Option ℤ
  source : String
deriving Repr, DecidableEq

/-- `ArticleHistory`: the in-memory state of `ArticleHistoryManager`.
`maxHistorySize` is kept as an integer because a loaded file may carry
an arbitrary (even negative) value. -/
structure ArticleHistory where
  selectedArticles : List String
  lastRun : String
  maxHistorySize : ℤ
deriving Repr, DecidableEq

/-- The outcome of `JSON.parse` on the history file, restricted to the
fields `loadHistory` reads.  A field is `none` when absent (and, for
`selectedArticles`, when present but not an array, since the code
guards with `Array.isArray`). -/
structure ParsedHistory where
  selectedArticles : Option (List String)
  lastRun : Option String
  maxHistorySize : Option ℤ
deriving Repr, DecidableEq

/-! ## History store (`src/article-history.ts`) -/

/-- `MAX_HISTORY_SIZE` / `CONSTANTS.HISTORY.MAX_SIZE` = 50 (spec §6:
`maxSize` default 50). -/
def MAX_HISTORY_SIZE : ℤ := 50

/-- `Array.prototype.slice(start)` with a possibly negative start. -/
def jsSliceFrom (start : ℤ) (l : List α) : List α :=
  if start < 0 then l.drop ((l.length : ℤ) + start).toNat
  else l.drop start.toNat

/-- The constructor's fresh state. -/
def newHistoryManager (nowIso : String) : ArticleHistory :=
  { selectedArticles := [], lastRun := nowIso, maxHistorySize := MAX_HISTORY_SIZE }

/-- JS `a || b` for a possibly-absent string field (`""` is falsy). -/
def jsOrString (v : Option String) (d : String) : String :=
  match v with
  | some s => if s = "" then d else s
  | none => d

/-- JS `a || b` for a possibly-absent integer field (`0` is falsy). -/
def jsOrInt (v : Option ℤ) (d : ℤ) : ℤ :=
  match v with
  | some n => if n = 0 then d else n
  | none => d

/-- `loadHistory()`: on a read/parse failure or a missing/non-array
`selectedArticles` field the current state is kept; otherwise the
parsed record is adopted (with `||`-defaulted `lastRun` and
`maxHistorySize`) and trimmed with `slice(-maxHistorySize)` when too
large. -/
def loadHistory (file : Option ParsedHistory) (cur : ArticleHistory)
    (nowIso : String) : ArticleHistory :=
  match file with
  | none => cur
  | some parsed =>
    match parsed.selectedArticles with
    | none => cur
    | some arts =>
      let h : ArticleHistory :=
        { selectedArticles := arts
          lastRun := jsOrString parsed.lastRun nowIso
          maxHistorySize := jsOrInt parsed.maxHistorySize MAX_HISTORY_SIZE }
      if (h.selectedArticles.length : ℤ) > h.maxHistorySize then
        { h with selectedArticles := jsSliceFrom (-h.maxHistorySize) h.selectedArticles }
      else h

/-- `saveHistory()` writes the state to disk; the in-memory state is
unchanged. -/
def saveHistory (h : ArticleHistory) : ArticleHistory := h

/-- `hasBeenSelected(articleUrl)`. -/
def hasBeenSelected (h : ArticleHistory) (articleUrl : String) : Bool :=
  h.selectedArticles.contains articleUrl

/-- `addSelectedArticle(articleUrl)`: filter out the url, push it at the
end, trim with `slice(-maxHistorySize)` when over capacity, refresh
`lastRun`. -/
def addSelectedArticle (articleUrl : String) (h : ArticleHistory)
    (nowIso : String) : ArticleHistory :=
  let links := h.selectedArticles.filter (fun url => url != articleUrl)
  let links := links ++ [articleUrl]
  let links :=
    if (links.length : ℤ) > h.maxHistorySize then
      jsSliceFrom (-h.maxHistorySize) links
    else links
  { selectedArticles := links, lastRun := nowIso, maxHistorySize := h.maxHistorySize }

/-- `filterUnselectedArticles(articles)`. -/
def filterUnselectedArticles (h : ArticleHistory) (articles : List Article) :
    List Article :=
  articles.filter (fun article => !(hasBeenSelected h article.link))

/-- `clearHistory()` (the state part; it then calls `saveHistory`). -/
def clearHistory (nowIso : String) : ArticleHistory :=
  { selectedArticles := [], lastRun := nowIso, maxHistorySize := MAX_HISTORY_SIZE }

/-! ## Deterministic fallback scorer, copy A
(`src/ai-processor.ts` lines 411-497: the branch taken when the AI
response is present but does not parse to a valid index). -/

/-- The `sourceScores` object literal of the invalid-response branch;
`sourceScores[article.source] || 3` (no table entry is falsy). -/
def sourceScoreA (source : String) : ℚ :=
  match source with
  | "OpenAI" => 10
  | "Google AI" => 10
  | "Google Research" => 9
  | "Berkeley AI Research" => 9
  | "CMU ML Blog" => 9
  | "arXiv" => 9
  | "Microsoft Research" => 8
  | "MIT Technology Review" => 8
  | "Stanford AI Lab" => 8
  | "GitHub Blog" => 8
  | "Stack Overflow" => 7
  | "Dev.to" => 7
  | "Medium - Towards Data Science" => 7
  | "Real Python" => 7
  | "PyTorch Blog" => 8
  | "TensorFlow Blog" => 8
  | "Hugging Face" => 8
  | "Ars Technica" => 6
  | "The Verge" => 5
  | "TechCrunch" => 5
  | "VentureBeat" => 5
  | "Wired" => 5
  | _ => 3

/-- The `technicalKeywords` array of the invalid-response branch. -/
def technicalKeywordsA : List String :=
  ["api", "framework", "library", "implementation", "architecture",
   "deployment", "performance", "scalability", "optimization",
   "integration", "code", "algorithm", "model", "training", "inference",
   "pipeline", "infrastructure", "testing", "debugging", "monitoring",
   "security"]

/-- The per-article score of the invalid-response branch:
`sourceScore + recencyScore + contentScore + technicalScore + randomBonus`.
An unparsable `pubDate` makes `daysSincePublished` `NaN`, which
propagates through `Math.max` and the sum, so the result is `none`. -/
def scoreArticleA (article : Article) (now : ℤ) (randomBonus : ℚ) : Option ℚ :=
  let sourceScore : ℚ := sourceScoreA article.source
  let contentScore : ℚ := min 5 ((article.content.length : ℚ) / 200)
  let technicalScore : ℚ :=
    ((technicalKeywordsA.filter
      (fun keyword => jsIncludes (toLowerStr article.content) keyword)).length : ℚ) * (1/2)
  match article.pubTime with
  | none => none
  | some t =>
    let daysSincePublished : ℤ := ⌊((now : ℚ) - (t : ℚ)) / (1000 * 60 * 60 * 24)⌋
    let recencyScore : ℚ := max 0 ((10 : ℚ) - (daysSincePublished : ℚ))
    some (sourceScore + recencyScore + contentScore + technicalScore + randomBonus)

/-! ## Deterministic fallback scorer, copy B
(`src/ai-processor.ts` lines 505-587: the `catch` branch, a verbatim
duplicate of copy A in the source). -/

/-- The `sourceScores` object literal of the `catch` branch. -/
def sourceScoreB (source : String) : ℚ :=
  match source with
  | "OpenAI" => 10
  | "Google AI" => 10
  | "Google Research" => 9
  | "Berkeley AI Research" => 9
  | "CMU ML Blog" => 9
  | "arXiv" => 9
  | "Microsoft Research" => 8
  | "MIT Technology Review" => 8
  | "Stanford AI Lab" => 8
  | "GitHub Blog" => 8
  | "Stack Overflow" => 7
  | "Dev.to" => 7
  | "Medium - Towards Data Science" => 7
  | "Real Python" => 7
  | "PyTorch Blog" => 8
  | "TensorFlow Blog" => 8
  | "Hugging Face" => 8
  | "Ars Technica" => 6
  | "The Verge" => 5
  | "TechCrunch" => 5
  | "VentureBeat" => 5
  | "Wired" => 5
  | _ => 3

/-- The `technicalKeywords` array of the `catch` branch. -/
def technicalKeywordsB : List String :=
  ["api", "framework", "library", "implementation", "architecture",
   "deployment", "performance", "scalability", "optimization",
   "integration", "code", "algorithm", "model", "training", "inference",
   "pipeline", "infrastructure", "testing", "debugging", "monitoring",
   "security"]

/-- The per-article score of the `catch` branch. -/
def scoreArticleB (article : Article) (now : ℤ) (randomBonus : ℚ) : Option ℚ :=
  let sourceScore : ℚ := sourceScoreB article.source
  let contentScore : ℚ := min 5 ((article.content.length : ℚ) / 200)
  let technicalScore : ℚ :=
    ((technicalKeywordsB.filter
      (fun keyword => jsIncludes (toLowerStr article.content) keyword)).length : ℚ) * (1/2)
  match article.pubTime with
  | none => none
  | some t =>
    let daysSincePublished : ℤ := ⌊((now : ℚ) - (t : ℚ)) / (1000 * 60 * 60 * 24)⌋
    let recencyScore : ℚ := max 0 ((10 : ℚ) - (daysSincePublished : ℚ))
    some (sourceScore + recencyScore + contentScore + technicalScore + randomBonus)

/-! ## Sorting and the fallback pick -/

/-- `candidateArticles.map(article => ({article, score}))` with one
jitter draw per array index. -/
def scoredAux (score : Article → ℚ → Option ℚ) (jitter : ℕ → ℚ) :
    ℕ → List Article → List (Article × Option ℚ)
  | _, [] => []
  | i, a :: rest => (a, score a (jitter i)) :: scoredAux score jitter (i + 1) rest

/-- The comparator `(a, b) => b.score - a.score` yields a negative
number (i.e. "`a` before `b`") exactly when `a.score > b.score`; a
`NaN` comparator value counts as `+0` per ECMAScript `SortCompare`,
which is the `false` of the catch-all branch. -/
def scoreGt (x y : Option ℚ) : Bool :=
  match x, y with
  | some a, some b => decide (b < a)
  | _, _ => false

/-- `scoredArticles.sort((a, b) => b.score - a.score)`: stable insertion
sort, keeping `x` before the already-placed `y` unless `y.score > x.score`. -/
def sortByScoreDesc (l : List (Article × Option ℚ)) : List (Article × Option ℚ) :=
  l.insertionSort (fun x y => scoreGt y.2 x.2 = false)

/-- Error taxonomy of the selector: the spec's `EmptyInputError`
(`throw new Error("No articles provided for selection")`). -/
inductive SelectError where
  | emptyInput
deriving Repr, DecidableEq

def defaultArticle : Article :=
  { title := "", link := "", content := "", pubTime := none, source := "" }

/-- `scoredArticles.sort(...)[0].article` for the invalid-response
branch (copy A); an empty candidate list cannot reach this point. -/
def fallbackA (candidateArticles : List Article) (jitter : ℕ → ℚ) (now : ℤ) :
    Except SelectError Article :=
  match (sortByScoreDesc (scoredAux (fun a r => scoreArticleA a now r) jitter 0 candidateArticles)).head? with
  | some best => .ok best.1
  | none => .error .emptyInput

/-- `scoredArticles.sort(...)[0].article` for the `catch` branch (copy B). -/
def fallbackB (candidateArticles : List Article) (jitter : ℕ → ℚ) (now : ℤ) :
    Except SelectError Article :=
  match (sortByScoreDesc (scoredAux (fun a r => scoreArticleB a now r) jitter 0 candidateArticles)).head? with
  | some best => .ok best.1
  | none => .error .emptyInput

/-! ## Selector (`selectMostRelevantArticle`) -/

/-- The candidate-filtering step: when a history manager is present,
keep the unselected articles, or the full list when none survive. -/
def candidatesOf (historyManager : Option ArticleHistory)
    (articles : List Article) : List Article :=
  match historyManager with
  | none => articles
  | some h =>
    let unselectedArticles := filterUnselectedArticles h articles
    if unselectedArticles.length > 0 then unselectedArticles else articles

/-- `selectMostRelevantArticle(articles, historyManager?)`.
`aiResponse` is the outcome of the awaited `generateContent(prompt)`
call (`.error` = it threw), `jitter` the `Math.random() * 2` stream,
`now` the `Date.now()` millisecond clock. -/
def selectMostRelevantArticle (articles : List Article)
    (historyManager : Option ArticleHistory) (aiResponse : Except Unit String)
    (jitter : ℕ → ℚ) (now : ℤ) : Except SelectError Article :=
  if articles.length = 0 then .error .emptyInput
  else
    let candidateArticles := candidatesOf historyManager articles
    if candidateArticles.length = 1 then .ok (candidateArticles.getD 0 defaultArticle)
    else
      match aiResponse with
      | .ok response =>
        match jsParseInt (jsTrim response) with
        | none => fallbackA candidateArticles jitter now
        | some v =>
          let selectedIndex : ℤ := v - 1
          if selectedIndex < 0 ∨ (candidateArticles.length : ℤ) ≤ selectedIndex then
            fallbackA candidateArticles jitter now
          else .ok (candidateArticles.getD selectedIndex.toNat defaultArticle)
      | .error _ => fallbackB candidateArticles jitter now

/-! ## Spec-side definitions

These follow the wording of the specification (spec §4.2 and §3) and are
compared against the code-side definitions above. -/

/-- Spec §4.2 item 4: the number of distinct configured technical
keywords occurring as case-insensitive substrings of the content. -/
def distinctKeywordMatches (keywords : List String) (content : String) : ℕ :=
  ((keywords.dedup).filter
    (fun keyword => jsIncludes (toLowerStr content) (toLowerStr keyword))).length

/-- Spec §4.2: `score(article, now, sourceTable, technicalKeywords)` =
source term + recency term + content-depth term + keyword term + jitter,
stated for an article whose `publishedAt` parses to the timestamp `t`. -/
def scoreSpec (a : Article) (now t : ℤ) (r : ℚ) : ℚ :=
  sourceScoreA a.source
    + max 0 ((10 : ℚ) - (⌊((now : ℚ) - (t : ℚ)) / 86400000⌋ : ℚ))
    + min 5 ((a.content.length : ℚ) / 200)
    + (1/2) * (distinctKeywordMatches technicalKeywordsA a.content : ℚ)
    + r

/-- Keep the last `m` elements of a list, i.e. truncate from the front. -/
def takeLast (m : ℕ) (l : List α) : List α := l.drop (l.length - m)

/-- Spec §3 `HistoryRecord` invariants: no duplicate links, and at most
`maxSize` of them. -/
def historyInv (h : ArticleHistory) : Prop :=
  h.selectedArticles.Nodup ∧ (h.selectedArticles.length : ℤ) ≤ h.maxHistorySize

/-! ## Concrete sample data, used in witnesses and counterexamples -/

/-- A content string of `n` characters, none of which starts a keyword. -/
def zContent (n : ℕ) : String := String.mk (List.replicate n 'z')

/-- A 1200-character content containing all 21 configured technical
keywords (211 characters of keywords, then padding). -/
def techContent : String :=
  "api framework library implementation architecture deployment performance scalability optimization integration code algorithm model training inference pipeline infrastructure testing debugging monitoring security"
    ++ zContent 989

def sampleOpenAI : Article :=
  { title := "OpenAI news", link := "https://openai.example/a",
    content := zContent 3000, pubTime := some 0, source := "OpenAI" }

def sampleUnknown : Article :=
  { title := "Misc news", link := "https://misc.example/b",
    content := zContent 50, pubTime := some 0, source := "Unknown" }

def sampleTechCrunch : Article :=
  { title := "TC news", link := "https://tc.example/c",
    content := techContent, pubTime := some 0, source := "TechCrunch" }

def sampleTechCrunchPlain : Article :=
  { title := "TC news", link := "https://tc.example/c",
    content := zContent 1200, pubTime := some 0, source := "TechCrunch" }

/-- 100 days in milliseconds. -/
def bigNow : ℤ := 8640000000

def oldArticle : Article :=
  { title := "old", link := "https://ex.example/old", content := "",
    pubTime := some 0, source := "Unknown" }

def freshArticle : Article :=
  { title := "fresh", link := "https://ex.example/fresh", content := "",
    pubTime := some bigNow, source := "OpenAI" }

def unparsableArticle : Article :=
  { title := "bad date", link := "https://ex.example/bad", content := "",
    pubTime := none, source := "Unknown" }

/-- A history file whose stored link list carries a duplicate. -/
def dupHistoryFile : ParsedHistory :=
  { selectedArticles := some ["https://ex.example/a", "https://ex.example/a"],
    lastRun := some "2024-01-01T00:00:00.000Z", maxHistorySize := some 50 }

def seenHistory : ArticleHistory :=
  { selectedArticles := ["https://ex.example/old"],
    lastRun := "2024-01-01T00:00:00.000Z", maxHistorySize := 50 }

/-! ## Helper lemmas -/

theorem scoredAux_length (score : Article → ℚ → Option ℚ) (jitter : ℕ → ℚ)
    (i : ℕ) (l : List Article) : (scoredAux score jitter i l).length = l.length := by
  induction l generalizing i with
  | nil => rfl
  | cons a rest ih => simp [scoredAux, ih]

theorem scoredAux_fst_mem {score : Article → ℚ → Option ℚ} {jitter : ℕ → ℚ}
    {i : ℕ} {l : List Article} {p : Article × Option ℚ}
    (hp : p ∈ scoredAux score jitter i l) : p.1 ∈ l := by
  induction l generalizing i with
  | nil => simp [scoredAux] at hp
  | cons a rest ih =>
    simp only [scoredAux, List.mem_cons] at hp
    rcases hp with h | h
    · simp [h]
    · exact List.mem_cons_of_mem _ (ih h)

theorem sortByScoreDesc_perm (l : List (Article × Option ℚ)) :
    (sortByScoreDesc l).Perm l := List.perm_insertionSort _ _

theorem sortByScoreDesc_length (l : List (Article × Option ℚ)) :
    (sortByScoreDesc l).length = l.length := (sortByScoreDesc_perm l).length_eq

theorem head?_mem {l : List α} {a : α} (h : l.head? = some a) : a ∈ l := by
  cases l with
  | nil => simp at h
  | cons b rest => simp at h; simp [h]

theorem getD_mem {l : List α} {n : ℕ} (d : α) (h : n < l.length) :
    l.getD n d ∈ l := by
  induction l generalizing n with
  | nil => simp at h
  | cons a rest ih =>
    cases n with
    | zero => simp [List.getD]
    | succ m =>
      simp only [List.length_cons, Nat.succ_lt_succ_iff] at h
      exact List.mem_cons_of_mem _ (ih h)

theorem candidatesOf_mem {hm : Option ArticleHistory} {articles : List Article}
    {a : Article} (ha : a ∈ candidatesOf hm articles) : a ∈ articles := by
  cases hm with
  | none => exact ha
  | some h =>
    simp only [candidatesOf] at ha
    split at ha
    · exact List.mem_of_mem_filter ha
    · exact ha

theorem candidatesOf_ne_nil {hm : Option ArticleHistory} {articles : List Article}
    (h : articles ≠ []) : candidatesOf hm articles ≠ [] := by
  cases hm with
  | none => exact h
  | some hist =>
    simp only [candidatesOf]
    split
    · intro hnil
      simp_all
    · exact h

theorem fallbackA_ok {cands : List Article} (jitter : ℕ → ℚ) (now : ℤ)
    (h : cands ≠ []) : ∃ a, fallbackA cands jitter now = .ok a ∧ a ∈ cands := by
  unfold fallbackA
  have hlen : (sortByScoreDesc (scoredAux (fun a r => scoreArticleA a now r) jitter 0 cands)).length
      = cands.length := by
    rw [sortByScoreDesc_length, scoredAux_length]
  cases hs : (sortByScoreDesc (scoredAux (fun a r => scoreArticleA a now r) jitter 0 cands)).head? with
  | none =>
    rw [List.head?_eq_none_iff] at hs
    rw [hs] at hlen
    exact absurd (List.length_eq_zero.mp hlen.symm) h
  | some p =>
    refine ⟨p.1, rfl, ?_⟩
    have := (sortByScoreDesc_perm _).mem_iff.mp (head?_mem hs)
    exact scoredAux_fst_mem this

theorem fallbackB_ok {cands : List Article} (jitter : ℕ → ℚ) (now : ℤ)
    (h : cands ≠ []) : ∃ a, fallbackB cands jitter now = .ok a ∧ a ∈ cands := by
  unfold fallbackB
  have hlen : (sortByScoreDesc (scoredAux (fun a r => scoreArticleB a now r) jitter 0 cands)).length
      = cands.length := by
    rw [sortByScoreDesc_length, scoredAux_length]
  cases hs : (sortByScoreDesc (scoredAux (fun a r => scoreArticleB a now r) jitter 0 cands)).head? with
  | none =>
    rw [List.head?_eq_none_iff] at hs
    rw [hs] at hlen
    exact absurd (List.length_eq_zero.mp hlen.symm) h
  | some p =>
    refine ⟨p.1, rfl, ?_⟩
    have := (sortByScoreDesc_perm _).mem_iff.mp (head?_mem hs)
    exact scoredAux_fst_mem this

theorem select_eq_empty {articles : List Article} (hm : Option ArticleHistory)
    (resp : Except Unit String) (jitter : ℕ → ℚ) (now : ℤ)
    (h0 : articles.length = 0) :
    selectMostRelevantArticle articles hm resp jitter now = .error .emptyInput := by
  simp [selectMostRelevantArticle, h0]

theorem select_eq_single {articles : List Article} (hm : Option ArticleHistory)
    (resp : Except Unit String) (jitter : ℕ → ℚ) (now : ℤ)
    (h0 : articles.length ≠ 0) (h1 : (candidatesOf hm articles).length = 1) :
    selectMostRelevantArticle articles hm resp jitter now =
      .ok ((candidatesOf hm articles).getD 0 defaultArticle) := by
  have h0' : ¬articles = [] := fun h => h0 (by simp [h])
  simp [selectMostRelevantArticle, h0', h1]

theorem select_eq_catch {articles : List Article} (hm : Option ArticleHistory)
    (e : Unit) (jitter : ℕ → ℚ) (now : ℤ)
    (h0 : articles.length ≠ 0) (h1 : (candidatesOf hm articles).length ≠ 1) :
    selectMostRelevantArticle articles hm (.error e) jitter now =
      fallbackB (candidatesOf hm articles) jitter now := by
  have h0' : ¬articles = [] := fun h => h0 (by simp [h])
  simp [selectMostRelevantArticle, h0', h1]

theorem select_eq_resp_unparsed {articles : List Article} (hm : Option ArticleHistory)
    (response : String) (jitter : ℕ → ℚ) (now : ℤ)
    (h0 : articles.length ≠ 0) (h1 : (candidatesOf hm articles).length ≠ 1)
    (hp : jsParseInt (jsTrim response) = none) :
    selectMostRelevantArticle articles hm (.ok response) jitter now =
      fallbackA (candidatesOf hm articles) jitter now := by
  have h0' : ¬articles = [] := fun h => h0 (by simp [h])
  simp [selectMostRelevantArticle, h0', h1, hp]

theorem select_eq_resp_parsed {articles : List Article} (hm : Option ArticleHistory)
    (response : String) (jitter : ℕ → ℚ) (now : ℤ) {v : ℤ}
    (h0 : articles.length ≠ 0) (h1 : (candidatesOf hm articles).length ≠ 1)
    (hp : jsParseInt (jsTrim response) = some v) :
    selectMostRelevantArticle articles hm (.ok response) jitter now =
      (if v - 1 < 0 ∨ ((candidatesOf hm articles).length : ℤ) ≤ v - 1 then
         fallbackA (candidatesOf hm articles) jitter now
       else .ok ((candidatesOf hm articles).getD (v - 1).toNat defaultArticle)) := by
  have h0' : ¬articles = [] := fun h => h0 (by simp [h])
  simp [selectMostRelevantArticle, h0', h1, hp]

theorem select_total {articles : List Article} (hm : Option ArticleHistory)
    (resp : Except Unit String) (jitter : ℕ → ℚ) (now : ℤ) (hne : articles ≠ []) :
    ∃ a, selectMostRelevantArticle articles hm resp jitter now = .ok a ∧ a ∈ articles := by
  have hlen : articles.length ≠ 0 := by simpa [List.length_eq_zero] using hne
  have hcne : candidatesOf hm articles ≠ [] := candidatesOf_ne_nil hne
  by_cases h1 : (candidatesOf hm articles).length = 1
  · refine ⟨(candidatesOf hm articles).getD 0 defaultArticle,
      select_eq_single hm resp jitter now hlen h1, ?_⟩
    exact candidatesOf_mem (getD_mem _ (by omega))
  · cases resp with
    | error e =>
      obtain ⟨a, ha, hmem⟩ := fallbackB_ok jitter now hcne
      rw [select_eq_catch hm e jitter now hlen h1]
      exact ⟨a, ha, candidatesOf_mem hmem⟩
    | ok response =>
      cases hp : jsParseInt (jsTrim response) with
      | none =>
        obtain ⟨a, ha, hmem⟩ := fallbackA_ok jitter now hcne
        rw [select_eq_resp_unparsed hm response jitter now hlen h1 hp]
        exact ⟨a, ha, candidatesOf_mem hmem⟩
      | some v =>
        rw [select_eq_resp_parsed hm response jitter now hlen h1 hp]
        by_cases hv : v - 1 < 0 ∨ ((candidatesOf hm articles).length : ℤ) ≤ v - 1
        · obtain ⟨a, ha, hmem⟩ := fallbackA_ok jitter now hcne
          rw [if_pos hv]
          exact ⟨a, ha, candidatesOf_mem hmem⟩
        · rw [if_neg hv]
          exact ⟨(candidatesOf hm articles).getD (v - 1).toNat defaultArticle, rfl,
            candidatesOf_mem (getD_mem defaultArticle (by omega))⟩

theorem keywords_lower : ∀ k ∈ technicalKeywordsA, toLowerStr k = k := by decide

theorem keywords_dedup : technicalKeywordsA.dedup = technicalKeywordsA := by decide

theorem sourceScoreA_ge_three (s : String) : (3 : ℚ) ≤ sourceScoreA s := by
  unfold sourceScoreA
  split <;> norm_num

theorem empty_content_no_keywords :
    ∀ k ∈ technicalKeywordsA, jsIncludes (toLowerStr "") k = false := by decide

theorem filter_keywords_empty :
    technicalKeywordsA.filter (fun k => jsIncludes (toLowerStr "") k) = [] := by decide

theorem scoreA_oldArticle : scoreArticleA oldArticle bigNow 0 = some 3 := by
  simp only [scoreArticleA, oldArticle, filter_keywords_empty]
  rw [show sourceScoreA "Unknown" = 3 from rfl]
  norm_num [bigNow, max_def, min_def]

theorem scoreA_freshArticle : scoreArticleA freshArticle bigNow 0 = some 20 := by
  simp only [scoreArticleA, freshArticle, filter_keywords_empty]
  rw [show sourceScoreA "OpenAI" = 10 from rfl]
  norm_num [bigNow, max_def, min_def]

theorem fallbackA_two_fresh :
    fallbackA [oldArticle, freshArticle] (fun _ => 0) bigNow = .ok freshArticle := by
  simp only [fallbackA, scoredAux, scoreA_oldArticle, scoreA_freshArticle,
    sortByScoreDesc, List.insertionSort, List.orderedInsert]
  have g : scoreGt (some (20 : ℚ)) (some (3 : ℚ)) = true := by
    simp [scoreGt]
    norm_num
  simp [g]

theorem containsSub_of_ne_front (needle : List Char) (c0 : Char) (t : List Char)
    (hn : needle = c0 :: t) : ∀ hay : List Char, (∀ c ∈ hay, c0 ≠ c) →
    containsSub needle hay = false := by
  intro hay
  induction hay with
  | nil => intro; simp [containsSub, hn]
  | cons c rest ih =>
    intro hall
    have hne : c0 ≠ c := hall c (by simp)
    simp [containsSub, hn, List.isPrefixOf, hne]
    exact hn ▸ ih (fun d hd => hall d (by simp [hd]))

theorem zContent_no_keywords (n : ℕ) :
    ∀ k ∈ technicalKeywordsA, jsIncludes (toLowerStr (zContent n)) k = false := by
  have hlow : toLowerStr (zContent n) = zContent n := by
    simp [toLowerStr, zContent, List.map_replicate]
  intro k hk
  rw [hlow]
  fin_cases hk <;>
    · apply containsSub_of_ne_front _ _ _ rfl
      intro c hc
      simp [zContent] at hc
      simp [hc]

theorem zContent_keyword_count (n : ℕ) :
    (technicalKeywordsA.filter
      (fun k => jsIncludes (toLowerStr (zContent n)) k)).length = 0 := by
  have : technicalKeywordsA.filter
      (fun k => jsIncludes (toLowerStr (zContent n)) k) = [] := by
    rw [List.filter_eq_nil_iff]
    intro k hk
    simp [zContent_no_keywords n k hk]
  simp [this]

theorem zContent_length (n : ℕ) : (zContent n).length = n := by
  show (List.replicate n 'z').length = n
  simp

theorem techContent_length : techContent.length = 1200 := by decide

theorem techContent_keyword_count :
    (technicalKeywordsA.filter
      (fun k => jsIncludes (toLowerStr techContent) k)).length = 21 := by decide

theorem scoreArticleB_eq_A : scoreArticleB = scoreArticleA := rfl

theorem scoreA_sampleOpenAI : scoreArticleA sampleOpenAI 0 0 = some 25 := by
  simp only [scoreArticleA, sampleOpenAI, zContent_keyword_count, zContent_length]
  rw [show sourceScoreA "OpenAI" = 10 from rfl]
  norm_num [max_def, min_def]

theorem scoreA_sampleUnknown : scoreArticleA sampleUnknown 0 0 = some (53/4) := by
  simp only [scoreArticleA, sampleUnknown]
  rw [zContent_length, zContent_keyword_count]
  rw [show sourceScoreA "Unknown" = 3 from rfl]
  norm_num [max_def, min_def]

theorem scoreA_sampleTechCrunch :
    scoreArticleA sampleTechCrunch 0 0 = some (61/2) := by
  simp only [scoreArticleA, sampleTechCrunch]
  rw [techContent_length, techContent_keyword_count]
  rw [show sourceScoreA "TechCrunch" = 5 from rfl]
  norm_num [max_def, min_def]

theorem orderedInsert_of_max (x : Article × Option ℚ)
    (l : List (Article × Option ℚ)) (h : ∀ y ∈ l, scoreGt y.2 x.2 = false) :
    List.orderedInsert (fun p q => scoreGt q.2 p.2 = false) x l = x :: l := by
  cases l with
  | nil => rfl
  | cons y t =>
    rw [List.orderedInsert, if_pos (h y (List.mem_cons_self y t))]

theorem sortByScoreDesc_cons_of_max (x : Article × Option ℚ)
    (xs : List (Article × Option ℚ)) (h : ∀ y ∈ xs, scoreGt y.2 x.2 = false) :
    sortByScoreDesc (x :: xs) = x :: sortByScoreDesc xs := by
  show List.insertionSort _ (x :: xs) = _
  rw [List.insertionSort]
  exact orderedInsert_of_max x _
    (fun y hy => h y ((List.perm_insertionSort _ _).mem_iff.mp hy))

theorem takeLast_eq_reverse_take (m : ℕ) (l : List α) :
    takeLast m l = (l.reverse.take m).reverse :=
  List.rtake_eq_reverse_take_reverse l m

theorem takeLast_of_le {m : ℕ} {l : List α} (h : l.length ≤ m) :
    takeLast m l = l := by
  simp [takeLast, Nat.sub_eq_zero_of_le h]

theorem takeLast_length (m : ℕ) (l : List α) :
    (takeLast m l).length = min m l.length := by
  simp only [takeLast, List.length_drop]
  omega

theorem takeLast_sublist (m : ℕ) (l : List α) : (takeLast m l).Sublist l :=
  List.drop_sublist _ _

theorem takeLast_append_comp (m : ℕ) (xs ys : List α) :
    takeLast m (takeLast m xs ++ ys) = takeLast m (xs ++ ys) := by
  rw [takeLast_eq_reverse_take, takeLast_eq_reverse_take, takeLast_eq_reverse_take]
  rw [List.reverse_append, List.reverse_reverse, List.reverse_append]
  congr 1
  rw [List.take_append_eq_append_take, List.take_append_eq_append_take, List.take_take]
  congr 1
  rw [min_eq_left (Nat.sub_le _ _)]

theorem takeLast_concat_getLast {m : ℕ} (hm : 1 ≤ m) (A : List α) (u : α) :
    (takeLast m (A ++ [u])).getLast? = some u := by
  rw [takeLast, List.drop_append_of_le_length (by simp; omega)]
  exact List.getLast?_concat _

/-- `jsSliceFrom (-m)` keeps the last `m` elements when `m ≥ 1`. -/
theorem jsSliceFrom_neg_eq_takeLast {m : ℤ} (hm : 1 ≤ m) (l : List α) :
    jsSliceFrom (-m) l = takeLast m.toNat l := by
  rw [jsSliceFrom, if_pos (by omega), takeLast]
  congr 1
  omega

/-- What `addSelectedArticle` does to the link list: remove the url,
append it, keep the last `maxHistorySize` entries. -/
theorem addSelected_links (h : ArticleHistory) (url nowIso : String)
    (hm : 1 ≤ h.maxHistorySize) :
    (addSelectedArticle url h nowIso).selectedArticles
      = takeLast h.maxHistorySize.toNat
          ((h.selectedArticles.filter (fun u => u != url)) ++ [url]) := by
  simp only [addSelectedArticle]
  by_cases hc : (((h.selectedArticles.filter (fun u => u != url)) ++ [url]).length : ℤ)
      > h.maxHistorySize
  · rw [if_pos hc, jsSliceFrom_neg_eq_takeLast hm]
  · rw [if_neg hc, takeLast_of_le (by omega)]

theorem addSelected_max (h : ArticleHistory) (url nowIso : String) :
    (addSelectedArticle url h nowIso).maxHistorySize = h.maxHistorySize := rfl

theorem filter_ne_of_not_mem {url : String} {l : List String}
    (h : url ∉ l) : l.filter (fun u => u != url) = l := by
  rw [List.filter_eq_self]
  intro x hx
  have : x ≠ url := fun e => h (e ▸ hx)
  simp [this]

theorem length_filter_ne_of_nodup (url : String) :
    ∀ l : List String, l.Nodup → url ∈ l →
    (l.filter (fun u => u != url)).length + 1 = l.length := by
  intro l
  induction l with
  | nil => intro _ hm; exact absurd hm (by simp)
  | cons a t ih =>
    intro hnd hm
    obtain ⟨hat, htnd⟩ := List.nodup_cons.mp hnd
    by_cases hau : url = a
    · subst hau
      have hfil : t.filter (fun u => u != url) = t := filter_ne_of_not_mem hat
      simp [List.filter_cons, hfil]
    · have hurl : url ∈ t := by
        rcases List.mem_cons.mp hm with h | h
        · exact absurd h hau
        · exact h
      have hane : (a != url) = true := by
        simp only [bne_iff_ne, ne_eq]
        exact fun e => hau e.symm
      simp only [List.filter_cons, hane, if_true, List.length_cons]
      have := ih htnd hurl
      omega

theorem url_not_mem_filter (url : String) (l : List String) :
    url ∉ l.filter (fun u => u != url) := by
  intro hmem
  have := (List.mem_filter.mp hmem).2
  simp at this

/-- Folding `addSelectedArticle` over fresh, duplicate-free links keeps
exactly the last `maxHistorySize` of the concatenation. -/
theorem insertAll_takeLast (nowIso : String) :
    ∀ (L : List String) (s : ArticleHistory), 1 ≤ s.maxHistorySize → L.Nodup →
    (∀ u ∈ L, u ∉ s.selectedArticles) →
    (s.selectedArticles.length : ℤ) ≤ s.maxHistorySize →
    (L.foldl (fun st u => addSelectedArticle u st nowIso) s).selectedArticles
      = takeLast s.maxHistorySize.toNat (s.selectedArticles ++ L) := by
  intro L
  induction L with
  | nil =>
    intro s h1 _ _ hlen
    simp only [List.foldl_nil, List.append_nil]
    rw [takeLast_of_le (by omega)]
  | cons u rest ih =>
    intro s h1 hnd hfresh hlen
    obtain ⟨hu_notin, hrestnd⟩ := List.nodup_cons.mp hnd
    rw [List.foldl_cons]
    have hfilter : s.selectedArticles.filter (fun x => x != u) = s.selectedArticles :=
      filter_ne_of_not_mem (hfresh u (by simp))
    have hlinks' : (addSelectedArticle u s nowIso).selectedArticles
        = takeLast s.maxHistorySize.toNat (s.selectedArticles ++ [u]) := by
      rw [addSelected_links s u nowIso h1, hfilter]
    have h1' : 1 ≤ (addSelectedArticle u s nowIso).maxHistorySize := h1
    have hlen' : ((addSelectedArticle u s nowIso).selectedArticles.length : ℤ)
        ≤ (addSelectedArticle u s nowIso).maxHistorySize := by
      rw [addSelected_max, hlinks', takeLast_length]
      omega
    have hfresh' : ∀ v ∈ rest, v ∉ (addSelectedArticle u s nowIso).selectedArticles := by
      intro v hv hvmem
      rw [hlinks'] at hvmem
      rcases List.mem_append.mp ((takeLast_sublist _ _).subset hvmem) with h | h
      · exact hfresh v (by simp [hv]) h
      · exact hu_notin ((List.mem_singleton.mp h) ▸ hv)
    rw [ih (addSelectedArticle u s nowIso) h1' hrestnd hfresh' hlen']
    rw [addSelected_max, hlinks', takeLast_append_comp]
    congr 1
    simp

/-! ## Claim theorems -/

/-- C1: `selectMostRelevantArticle` yields `EmptyInputError` if and only
if the input list is empty; on every non-empty list it returns an
article that is a member of the input list, for every history and every
outcome of the external ranking signal (success, invalid value, or
throw). -/
theorem C1_selector_total (articles : List Article) (hm : Option ArticleHistory)
    (resp : Except Unit String) (jitter : ℕ → ℚ) (now : ℤ) :
    (selectMostRelevantArticle articles hm resp jitter now = .error .emptyInput
      ↔ articles = [])
    ∧ (∀ a, selectMostRelevantArticle articles hm resp jitter now = .ok a →
        a ∈ articles)
    ∧ (articles ≠ [] →
        ∃ a, selectMostRelevantArticle articles hm resp jitter now = .ok a) := by
  refine ⟨⟨?_, ?_⟩, ?_, ?_⟩
  · intro herr
    by_contra hne
    obtain ⟨a, ha, _⟩ := select_total hm resp jitter now hne
    rw [ha] at herr
    exact absurd herr (by simp)
  · intro h
    exact select_eq_empty hm resp jitter now (by simp [h])
  · intro a ha
    by_cases hne : articles = []
    · rw [select_eq_empty hm resp jitter now (by simp [hne])] at ha
      exact absurd ha (by simp)
    · obtain ⟨b, hb, hbmem⟩ := select_total hm resp jitter now hne
      rw [hb] at ha
      obtain rfl : b = a := by simpa using ha
      exact hbmem
  · intro hne
    obtain ⟨a, ha, _⟩ := select_total hm resp jitter now hne
    exact ⟨a, ha⟩

/-- C1 witness: on the empty list the selector raises `EmptyInputError`. -/
theorem C1_selector_total_witness :
    selectMostRelevantArticle [] none (.error ()) (fun _ => 0) 0
      = .error .emptyInput :=
  (C1_selector_total [] none (.error ()) (fun _ => 0) 0).1.mpr rfl

/-- C10: when the history filter leaves exactly one unseen article, the
selector returns that article, for every AI response, jitter stream and
clock (so without consulting the external ranking or any score). -/
theorem C10_single_unseen (articles : List Article) (h : ArticleHistory)
    (resp : Except Unit String) (jitter : ℕ → ℚ) (now : ℤ) (a : Article)
    (hfil : filterUnselectedArticles h articles = [a]) :
    selectMostRelevantArticle articles (some h) resp jitter now = .ok a := by
  have hamem : a ∈ articles :=
    List.mem_of_mem_filter (hfil ▸ List.mem_singleton_self a)
  have hlen : articles.length ≠ 0 := by
    intro h0
    rw [List.length_eq_zero.mp h0] at hamem
    exact absurd hamem (by simp)
  have hcand : candidatesOf (some h) articles = [a] := by
    simp [candidatesOf, hfil]
  rw [select_eq_single (some h) resp jitter now hlen (by rw [hcand]; rfl), hcand]
  rfl

/-- C10 witness: with one of two articles already in the history, the
unseen one is returned even though the AI response names the other. -/
theorem C10_single_unseen_witness :
    selectMostRelevantArticle [oldArticle, freshArticle] (some seenHistory)
      (.ok "1") (fun _ => 0) 0 = .ok freshArticle :=
  C10_single_unseen [oldArticle, freshArticle] seenHistory (.ok "1")
    (fun _ => 0) 0 freshArticle (by decide)

/-- C4: the candidate-filtering step keeps exactly the articles whose
link is not in the history, in the original relative order, and when
every article's link is in the history the candidate set is the full
original list. -/
theorem C4_candidate_filter (h : ArticleHistory) (articles : List Article) :
    (filterUnselectedArticles h articles
      = articles.filter (fun a => decide (a.link ∉ h.selectedArticles)))
    ∧ (filterUnselectedArticles h articles).Sublist articles
    ∧ ((∀ a ∈ articles, a.link ∈ h.selectedArticles) →
        candidatesOf (some h) articles = articles) := by
  refine ⟨?_, ?_, ?_⟩
  · apply List.filter_congr
    intro a _
    simp [hasBeenSelected, List.elem_iff]
  · exact List.filter_sublist _
  · intro hall
    have hnil : filterUnselectedArticles h articles = [] := by
      rw [filterUnselectedArticles, List.filter_eq_nil_iff]
      intro a ha
      simp [hasBeenSelected, List.elem_iff, hall a ha]
    simp [candidatesOf, hnil]

/-- C4 witness: with the only article's link in the history, the
candidate set falls back to the full list. -/
theorem C4_candidate_filter_witness :
    candidatesOf (some seenHistory) [oldArticle] = [oldArticle] :=
  (C4_candidate_filter seenHistory [oldArticle]).2.2 (by decide)

/-- C2: for an article whose `publishedAt` parses to `t` and a jitter
draw `r ∈ [0, 2)`, the code's fallback score equals the spec's sum:
source-table lookup (default 3) + `max(0, 10 - ⌊wholeDays⌋)` +
`min(5, |content| / 200)` + `0.5 ×` (distinct configured keywords
occurring case-insensitively in the content) + `r`. -/
theorem C2_fallback_score_formula (a : Article) (now t : ℤ) (r : ℚ)
    (ht : a.pubTime = some t) (hr0 : 0 ≤ r) (hr2 : r < 2) :
    scoreArticleA a now r = some (scoreSpec a now t r) := by
  have hfil : technicalKeywordsA.filter
        (fun k => jsIncludes (toLowerStr a.content) (toLowerStr k))
      = technicalKeywordsA.filter (fun k => jsIncludes (toLowerStr a.content) k) := by
    apply List.filter_congr
    intro k hk
    rw [keywords_lower k hk]
  simp only [scoreArticleA, ht, scoreSpec, distinctKeywordMatches, keywords_dedup, hfil]
  norm_num
  ring_nf

/-- C2 witness: the formula agrees on a concrete article at a concrete
clock with jitter `0`. -/
theorem C2_fallback_score_formula_witness :
    scoreArticleA oldArticle bigNow 0 = some (scoreSpec oldArticle bigNow 0 0) :=
  C2_fallback_score_formula oldArticle bigNow 0 0 rfl le_rfl (by norm_num)

/-- C3 counterexample: on an article whose `publishedAt` does not parse,
the score is `NaN` (modelled `none`) — not a finite non-negative number,
and the recency term is not 0: `NaN` propagates through
`Math.max(0, 10 - NaN)` and the final sum. -/
theorem C3_total_scoring_cex :
    scoreArticleA unparsableArticle 0 0 = none
      ∧ unparsableArticle.pubTime = none :=
  ⟨rfl, rfl⟩

/-- C3 amended: for every article whose `publishedAt` parses (and
non-negative jitter) the score is a finite non-negative number, and
empty content degrades the content-depth and keyword terms to 0; but an
unparsable date yields `NaN`, not recency 0. -/
theorem C3_amended_total_scoring (a : Article) (now t : ℤ) (r : ℚ)
    (ht : a.pubTime = some t) (hr : 0 ≤ r) :
    (∃ q, scoreArticleA a now r = some q ∧ 0 ≤ q)
    ∧ (a.content = "" →
        scoreArticleA a now r = some (sourceScoreA a.source
          + max 0 ((10 : ℚ) - (⌊((now : ℚ) - (t : ℚ)) / (1000 * 60 * 60 * 24)⌋ : ℚ))
          + r)) := by
  constructor
  · refine ⟨sourceScoreA a.source
      + max 0 ((10 : ℚ) - (⌊((now : ℚ) - (t : ℚ)) / (1000 * 60 * 60 * 24)⌋ : ℚ))
      + min 5 ((a.content.length : ℚ) / 200)
      + ((technicalKeywordsA.filter
          (fun k => jsIncludes (toLowerStr a.content) k)).length : ℚ) * (1/2)
      + r, ?_, ?_⟩
    · simp only [scoreArticleA, ht]
    · have h1 : (3 : ℚ) ≤ sourceScoreA a.source := sourceScoreA_ge_three _
      have h2 : (0 : ℚ) ≤ max 0 ((10 : ℚ)
          - (⌊((now : ℚ) - (t : ℚ)) / (1000 * 60 * 60 * 24)⌋ : ℚ)) := le_max_left _ _
      have h3 : (0 : ℚ) ≤ min 5 ((a.content.length : ℚ) / 200) :=
        le_min (by norm_num) (by positivity)
      have h4 : (0 : ℚ) ≤ ((technicalKeywordsA.filter
          (fun k => jsIncludes (toLowerStr a.content) k)).length : ℚ) * (1/2) := by
        positivity
      linarith
  · intro hc
    have hfil : technicalKeywordsA.filter
        (fun k => jsIncludes (toLowerStr "") k) = [] := by
      rw [List.filter_eq_nil_iff]
      intro k hk
      simp [empty_content_no_keywords k hk]
    simp only [scoreArticleA, ht, hc, hfil]
    norm_num

/-- C3 amended witness: a concrete empty-content article with a parsable
date gets the degraded but finite score. -/
theorem C3_amended_total_scoring_witness :
    scoreArticleA oldArticle bigNow 0 = some (sourceScoreA oldArticle.source
      + max 0 ((10 : ℚ) - (⌊((bigNow : ℚ) - ((0 : ℤ) : ℚ)) / (1000 * 60 * 60 * 24)⌋ : ℚ))
      + 0) :=
  (C3_amended_total_scoring oldArticle bigNow 0 0 rfl le_rfl).2 rfl

/-- C5 counterexample: with two candidates, the response `"1.9"` — a
non-integer numeral, which the claim places in the invalid class that
must route to the deterministic fallback — is accepted by the code:
`parseInt` truncates it to the in-range index 1 and the first article is
returned, even though the deterministic fallback would pick the second
(higher-scoring) article. -/
theorem C5_invalid_response_cex :
    selectMostRelevantArticle [oldArticle, freshArticle] none (.ok "1.9")
        (fun _ => 0) bigNow = .ok oldArticle
    ∧ fallbackA [oldArticle, freshArticle] (fun _ => 0) bigNow
        = .ok freshArticle := by
  refine ⟨?_, fallbackA_two_fresh⟩
  rw [select_eq_resp_parsed none "1.9" (fun _ => 0) bigNow (by decide)
    (by decide) (show jsParseInt (jsTrim "1.9") = some 1 by decide)]
  rw [if_neg (by decide)]
  rfl

/-- C5 amended: for two or more candidates and a response whose trimmed
form `parseInt`s to `NaN` or to an integer outside `[1, n]`, the
selector runs the deterministic scoring fallback and never propagates
an error to the caller. (Responses such as `"1.9"` or `"2abc"` are
truncated by `parseInt` and can be accepted as valid indices, so
"non-integer numerals" are not in the invalid class.) -/
theorem C5_amended_invalid_response (articles : List Article) (response : String)
    (jitter : ℕ → ℚ) (now : ℤ) (h2 : 2 ≤ articles.length)
    (hbad : jsParseInt (jsTrim response) = none
      ∨ ∃ v, jsParseInt (jsTrim response) = some v
          ∧ (v < 1 ∨ (articles.length : ℤ) < v)) :
    selectMostRelevantArticle articles none (.ok response) jitter now
      = fallbackA articles jitter now
    ∧ ∃ a, selectMostRelevantArticle articles none (.ok response) jitter now
        = .ok a ∧ a ∈ articles := by
  have h0 : articles.length ≠ 0 := by omega
  have h1 : (candidatesOf none articles).length ≠ 1 := by
    show articles.length ≠ 1
    omega
  have hne : articles ≠ [] := by
    intro h
    rw [h] at h2
    simp at h2
  have hmain : selectMostRelevantArticle articles none (.ok response) jitter now
      = fallbackA articles jitter now := by
    rcases hbad with hp | ⟨v, hp, hv⟩
    · exact select_eq_resp_unparsed none response jitter now h0 h1 hp
    · have hv' : v - 1 < 0 ∨ ((candidatesOf none articles).length : ℤ) ≤ v - 1 := by
        show v - 1 < 0 ∨ (articles.length : ℤ) ≤ v - 1
        omega
      rw [select_eq_resp_parsed none response jitter now h0 h1 hp, if_pos hv']
      rfl
  refine ⟨hmain, ?_⟩
  obtain ⟨a, ha, hmem⟩ := fallbackA_ok jitter now hne
  exact ⟨a, hmain.trans ha, hmem⟩

/-- C5 amended witness: a non-numeric response falls back, returning the
higher-scoring article. -/
theorem C5_amended_invalid_response_witness :
    selectMostRelevantArticle [oldArticle, freshArticle] none (.ok "abc")
      (fun _ => 0) bigNow = .ok freshArticle :=
  ((C5_amended_invalid_response [oldArticle, freshArticle] "abc" (fun _ => 0)
    bigNow (by norm_num) (.inl (by decide))).1).trans fallbackA_two_fresh

/-- C8: the fallback taken when the external call throws and the one
taken on an out-of-range or unparsable response are the same function —
the two duplicated scoring blocks in the source compute identical scores
and the same winner — and in particular, with the same jitter draws, the
selector's result on a thrown call equals its result on `"0"` and on
`"999"` (for 2 ≤ n ≤ 998 candidates, so that 999 is out of range). -/
theorem C8_fallback_equivalence (cands articles : List Article)
    (jitter : ℕ → ℚ) (now : ℤ)
    (h2 : 2 ≤ articles.length) (h998 : (articles.length : ℤ) ≤ 998) :
    fallbackA cands jitter now = fallbackB cands jitter now
    ∧ selectMostRelevantArticle articles none (.ok "0") jitter now
        = selectMostRelevantArticle articles none (.error ()) jitter now
    ∧ selectMostRelevantArticle articles none (.ok "999") jitter now
        = selectMostRelevantArticle articles none (.error ()) jitter now := by
  have hAB : fallbackA = fallbackB := rfl
  have h0 : articles.length ≠ 0 := by omega
  have h1 : (candidatesOf none articles).length ≠ 1 := by
    show articles.length ≠ 1
    omega
  have hcatch : selectMostRelevantArticle articles none (.error ()) jitter now
      = fallbackA articles jitter now := by
    rw [select_eq_catch none () jitter now h0 h1, ← hAB]
    rfl
  refine ⟨congrFun (congrFun (congrFun hAB cands) jitter) now, ?_, ?_⟩
  · rw [select_eq_resp_parsed none "0" jitter now h0 h1
      (show jsParseInt (jsTrim "0") = some 0 by decide), if_pos (by norm_num), hcatch]
    rfl
  · have hv : (999 : ℤ) - 1 < 0
        ∨ ((candidatesOf none articles).length : ℤ) ≤ 999 - 1 := by
      refine .inr ?_
      show (articles.length : ℤ) ≤ 999 - 1
      omega
    rw [select_eq_resp_parsed none "999" jitter now h0 h1
      (show jsParseInt (jsTrim "999") = some 999 by decide), if_pos hv, hcatch]
    rfl

/-- C8 witness: on two concrete candidates, a thrown external call and
the out-of-range response `"0"` produce the same selection. -/
theorem C8_fallback_equivalence_witness :
    selectMostRelevantArticle [oldArticle, freshArticle] none (.ok "0")
        (fun _ => 0) bigNow
      = selectMostRelevantArticle [oldArticle, freshArticle] none (.error ())
        (fun _ => 0) bigNow :=
  (C8_fallback_equivalence [] [oldArticle, freshArticle] (fun _ => 0) bigNow
    (by norm_num) (by norm_num)).2.1

/-- C9 counterexample: three articles with sources OpenAI / Unknown /
TechCrunch, content lengths 3000 / 50 / 1200, all published at the
clock time, with a failing external signal — but the fallback picks the
TechCrunch article: its content holds all 21 configured keywords
(+10.5) while the OpenAI content holds none, so TechCrunch scores 30.5
against OpenAI's 25; the claim's "for every choice of content text of
those lengths and every jitter draw" fails. -/
theorem C9_scenarioA_cex :
    selectMostRelevantArticle [sampleOpenAI, sampleUnknown, sampleTechCrunch]
        none (.error ()) (fun _ => 0) 0 = .ok sampleTechCrunch
    ∧ sampleOpenAI.source = "OpenAI" ∧ sampleUnknown.source = "Unknown"
    ∧ sampleTechCrunch.source = "TechCrunch"
    ∧ sampleOpenAI.content.length = 3000 ∧ sampleUnknown.content.length = 50
    ∧ sampleTechCrunch.content.length = 1200
    ∧ sampleOpenAI.pubTime = some 0 ∧ sampleUnknown.pubTime = some 0
    ∧ sampleTechCrunch.pubTime = some 0 := by
  refine ⟨?_, rfl, rfl, rfl, zContent_length 3000, zContent_length 50,
    techContent_length, rfl, rfl, rfl⟩
  rw [select_eq_catch none () (fun _ => 0) 0 (by norm_num) (by decide)]
  show fallbackB [sampleOpenAI, sampleUnknown, sampleTechCrunch] (fun _ => 0) 0
    = .ok sampleTechCrunch
  simp only [fallbackB, scoredAux, scoreArticleB_eq_A, scoreA_sampleOpenAI,
    scoreA_sampleUnknown, scoreA_sampleTechCrunch, sortByScoreDesc,
    List.insertionSort, List.orderedInsert]
  norm_num [scoreGt]

/-- C9 amended: with the three sources, lengths and publication times of
Scenario A and contents free of the configured technical keywords, the
deterministic fallback selects the OpenAI article for every jitter draw
in `[0, 2)`. (Keyword-laden contents can overturn the outcome, as the
counterexample shows.) -/
theorem C9_amended_scenarioA (a1 a2 a3 : Article) (jitter : ℕ → ℚ) (now : ℤ)
    (hs1 : a1.source = "OpenAI") (hs2 : a2.source = "Unknown")
    (hs3 : a3.source = "TechCrunch")
    (hc1 : a1.content.length = 3000) (hc2 : a2.content.length = 50)
    (hc3 : a3.content.length = 1200)
    (hk1 : ∀ k ∈ technicalKeywordsA, jsIncludes (toLowerStr a1.content) k = false)
    (hk2 : ∀ k ∈ technicalKeywordsA, jsIncludes (toLowerStr a2.content) k = false)
    (hk3 : ∀ k ∈ technicalKeywordsA, jsIncludes (toLowerStr a3.content) k = false)
    (ht1 : a1.pubTime = some now) (ht2 : a2.pubTime = some now)
    (ht3 : a3.pubTime = some now)
    (hj : ∀ i, 0 ≤ jitter i ∧ jitter i < 2) :
    fallbackB [a1, a2, a3] jitter now = .ok a1 := by
  have hf : ∀ c : String, (∀ k ∈ technicalKeywordsA,
      jsIncludes (toLowerStr c) k = false) →
      technicalKeywordsA.filter (fun k => jsIncludes (toLowerStr c) k) = [] := by
    intro c hk
    rw [List.filter_eq_nil_iff]
    intro k hkk
    simp [hk k hkk]
  have hfloor : (⌊((now : ℚ) - (now : ℚ)) / (1000 * 60 * 60 * 24)⌋ : ℤ) = 0 := by
    norm_num
  have e1 : scoreArticleB a1 now (jitter 0) = some (25 + jitter 0) := by
    simp only [scoreArticleB_eq_A, scoreArticleA, ht1, hs1, hc1, hf _ hk1]
    rw [show sourceScoreA "OpenAI" = 10 from rfl, hfloor]
    norm_num [max_def, min_def]
  have e2 : scoreArticleB a2 now (jitter 1) = some (53/4 + jitter 1) := by
    simp only [scoreArticleB_eq_A, scoreArticleA, ht2, hs2, hc2, hf _ hk2]
    rw [show sourceScoreA "Unknown" = 3 from rfl, hfloor]
    norm_num [max_def, min_def]
  have e3 : scoreArticleB a3 now (jitter 2) = some (20 + jitter 2) := by
    simp only [scoreArticleB_eq_A, scoreArticleA, ht3, hs3, hc3, hf _ hk3]
    rw [show sourceScoreA "TechCrunch" = 5 from rfl, hfloor]
    norm_num [max_def, min_def]
  simp only [fallbackB, scoredAux, e1, e2, e3]
  rw [sortByScoreDesc_cons_of_max]
  · rfl
  · intro y hy
    have h0 := (hj 0).1
    have h1 := (hj 1).2
    have h2 := (hj 2).2
    simp only [List.mem_cons, List.not_mem_nil, or_false] at hy
    rcases hy with rfl | rfl
    · show scoreGt (some (53/4 + jitter 1)) (some (25 + jitter 0)) = false
      rw [show scoreGt (some (53/4 + jitter 1)) (some (25 + jitter 0))
          = decide (25 + jitter 0 < 53/4 + jitter 1) from rfl]
      exact decide_eq_false (by intro hlt; linarith)
    · show scoreGt (some (20 + jitter 2)) (some (25 + jitter 0)) = false
      rw [show scoreGt (some (20 + jitter 2)) (some (25 + jitter 0))
          = decide (25 + jitter 0 < 20 + jitter 2) from rfl]
      exact decide_eq_false (by intro hlt; linarith)

/-- C9 amended witness: concrete keyword-free contents of lengths
3000 / 50 / 1200 with zero jitter select the OpenAI article. -/
theorem C9_amended_scenarioA_witness :
    fallbackB [sampleOpenAI, sampleUnknown, sampleTechCrunchPlain]
      (fun _ => 0) 0 = .ok sampleOpenAI :=
  C9_amended_scenarioA sampleOpenAI sampleUnknown sampleTechCrunchPlain
    (fun _ => 0) 0 rfl rfl rfl (zContent_length 3000) (zContent_length 50)
    (zContent_length 1200) (zContent_no_keywords 3000) (zContent_no_keywords 50)
    (zContent_no_keywords 1200) rfl rfl rfl
    (fun _ => ⟨le_refl 0, by norm_num⟩)

/-- C6: `addSelectedArticle` removes any existing occurrence of the
link, appends it as most recent, and truncates from the front when over
`maxSize`; re-inserting a present link keeps the length and moves the
link to the most-recent position; and inserting any duplicate-free run
of links into an empty history leaves exactly the most recent `maxSize`
of them. -/
theorem C6_recordSelection (h : ArticleHistory) (url nowIso : String)
    (hmax : 1 ≤ h.maxHistorySize) :
    ((addSelectedArticle url h nowIso).selectedArticles
       = takeLast h.maxHistorySize.toNat
           ((h.selectedArticles.filter (fun u => u != url)) ++ [url]))
    ∧ (url ∈ h.selectedArticles → h.selectedArticles.Nodup →
        (h.selectedArticles.length : ℤ) ≤ h.maxHistorySize →
        (addSelectedArticle url h nowIso).selectedArticles.length
            = h.selectedArticles.length
        ∧ (addSelectedArticle url h nowIso).selectedArticles.getLast? = some url
        ∧ ∀ u, u ∈ (addSelectedArticle url h nowIso).selectedArticles
            ↔ u ∈ h.selectedArticles)
    ∧ (∀ L : List String, h.selectedArticles = [] → L.Nodup →
        (L.foldl (fun st u => addSelectedArticle u st nowIso) h).selectedArticles
          = takeLast h.maxHistorySize.toNat L) := by
  refine ⟨addSelected_links h url nowIso hmax, ?_, ?_⟩
  · intro hmem hnd hlen
    have hflen := length_filter_ne_of_nodup url h.selectedArticles hnd hmem
    have hshort : ((h.selectedArticles.filter (fun u => u != url)) ++ [url]).length
        ≤ h.maxHistorySize.toNat := by
      simp only [List.length_append, List.length_singleton]
      omega
    have hlinks : (addSelectedArticle url h nowIso).selectedArticles
        = (h.selectedArticles.filter (fun u => u != url)) ++ [url] := by
      rw [addSelected_links h url nowIso hmax, takeLast_of_le hshort]
    refine ⟨?_, ?_, ?_⟩
    · rw [hlinks]
      simp only [List.length_append, List.length_singleton]
      omega
    · rw [hlinks]
      exact List.getLast?_concat _
    · intro u
      rw [hlinks]
      constructor
      · intro hu
        rcases List.mem_append.mp hu with h' | h'
        · exact List.mem_of_mem_filter h'
        · exact (List.mem_singleton.mp h') ▸ hmem
      · intro hu
        by_cases he : u = url
        · exact List.mem_append.mpr (.inr (by simp [he]))
        · refine List.mem_append.mpr (.inl (List.mem_filter.mpr ⟨hu, ?_⟩))
          simp [he]
  · intro L hempty hnd
    rw [insertAll_takeLast nowIso L h hmax hnd
      (by intro u _; rw [hempty]; simp) (by rw [hempty]; simp; omega)]
    rw [hempty, List.nil_append]

/-- C6 witness: recording a fresh link on a concrete one-entry history. -/
theorem C6_recordSelection_witness :
    (addSelectedArticle "https://ex.example/new" seenHistory "t").selectedArticles
      = takeLast seenHistory.maxHistorySize.toNat
          ((seenHistory.selectedArticles.filter
            (fun u => u != "https://ex.example/new")) ++ ["https://ex.example/new"]) :=
  (C6_recordSelection seenHistory "https://ex.example/new" "t" (by decide)).1

/-- C7 counterexample: `loadHistory` adopts a stored link list without
deduplicating it, so a file whose `selectedArticles` holds a duplicate
violates the no-duplicates invariant. -/
theorem C7_invariants_cex :
    ¬ (loadHistory (some dupHistoryFile) (newHistoryManager "t") "t").selectedArticles.Nodup := by
  decide

/-- C7 amended: `addSelectedArticle` preserves both invariants (no
duplicates, `|links| ≤ maxSize`) for positive `maxSize`, `clearHistory`
establishes them, `saveHistory` leaves the state unchanged, and
`loadHistory` enforces the size bound whenever the effective stored
`maxHistorySize` is positive and preserves no-duplicates only when the
stored list itself is duplicate-free (it performs no deduplication). -/
theorem C7_amended_invariants :
    (∀ (p : ParsedHistory) (cur : ArticleHistory) (nowIso : String),
      (∀ l, p.selectedArticles = some l → l.Nodup) →
      1 ≤ jsOrInt p.maxHistorySize MAX_HISTORY_SIZE →
      historyInv cur → historyInv (loadHistory (some p) cur nowIso))
    ∧ (∀ (cur : ArticleHistory) (nowIso : String),
        historyInv cur → historyInv (loadHistory none cur nowIso))
    ∧ (∀ (cur : ArticleHistory) (url nowIso : String),
        1 ≤ cur.maxHistorySize → historyInv cur →
        historyInv (addSelectedArticle url cur nowIso))
    ∧ (∀ nowIso : String, historyInv (clearHistory nowIso))
    ∧ (∀ cur : ArticleHistory, saveHistory cur = cur) := by
  refine ⟨?_, ?_, ?_, ?_, fun _ => rfl⟩
  · intro p cur nowIso hnd hpos hinv
    cases harts : p.selectedArticles with
    | none => simp only [loadHistory, harts]; exact hinv
    | some arts =>
      have handnd : arts.Nodup := hnd arts harts
      simp only [loadHistory, harts]
      by_cases hbig : ((arts.length : ℤ) > jsOrInt p.maxHistorySize MAX_HISTORY_SIZE)
      · rw [if_pos hbig]
        constructor
        · exact handnd.sublist (by rw [jsSliceFrom_neg_eq_takeLast hpos]; exact takeLast_sublist _ _)
        · show ((jsSliceFrom _ arts).length : ℤ) ≤ jsOrInt p.maxHistorySize MAX_HISTORY_SIZE
          rw [jsSliceFrom_neg_eq_takeLast hpos, takeLast_length]
          omega
      · rw [if_neg hbig]
        refine ⟨handnd, ?_⟩
        show (arts.length : ℤ) ≤ jsOrInt p.maxHistorySize MAX_HISTORY_SIZE
        omega
  · intro cur nowIso hinv
    exact hinv
  · intro cur url nowIso hpos hinv
    have hlinks := addSelected_links cur url nowIso hpos
    constructor
    · rw [hlinks]
      refine ((List.nodup_append).mpr ⟨hinv.1.filter _, List.nodup_singleton url, ?_⟩).sublist
        (takeLast_sublist _ _)
      intro x hx hx'
      exact url_not_mem_filter url cur.selectedArticles
        ((List.mem_singleton.mp hx') ▸ hx)
    · show ((addSelectedArticle url cur nowIso).selectedArticles.length : ℤ)
        ≤ cur.maxHistorySize
      rw [hlinks, takeLast_length]
      omega
  · intro nowIso
    exact ⟨List.nodup_nil, by simp [clearHistory, MAX_HISTORY_SIZE]⟩

/-- C7 amended witness: the invariants hold after recording a link on a
concrete valid history. -/
theorem C7_amended_invariants_witness :
    historyInv (addSelectedArticle "https://ex.example/new" seenHistory "t") :=
  (C7_amended_invariants).2.2.1 seenHistory "https://ex.example/new" "t"
    (by decide) ⟨by decide, by decide⟩

end Techbot
